import Mathlib

/-!
Verification development for the badge-generator repository
(`generate_badges.py`, `generate_badges2.py`, `generate_badges-for-test.py`).

The Python scripts are shallowly embedded below.  Pure helpers of the
scripts become Lean functions with the same names; calls into external
libraries (PIL, qrcode, textwrap, the filesystem) become explicit models
of the documented behaviour of those library functions, or parameters of
the embedding where the behaviour is irrelevant to the scripts' logic
(e.g. font metrics, LANCZOS resampling).
-/

/- ===================== Models of Python builtins ===================== -/

/-- Characters treated as whitespace by Python's `textwrap` machinery
(`string.whitespace`, i.e. tab, newline, vertical tab, form feed,
carriage return, space); also the ASCII core of `str.strip`. -/
def isPyWS (c : Char) : Bool :=
  c = ' ' || c = '\t' || c = '\n' || c = '\x0b' || c = '\x0c' || c = '\r'

/-- Models Python `str.strip()` (ASCII whitespace fragment): drop leading
and trailing whitespace characters. -/
def pyStrip (s : String) : String :=
  String.mk (((s.data.dropWhile isPyWS).reverse.dropWhile isPyWS).reverse)

/-- Models Python `str.upper()` on ASCII text: uppercase each character. -/
def pyUpper (s : String) : String :=
  String.mk (s.data.map Char.toUpper)

/-- Models Python `str.lower()` on ASCII text: lowercase each character. -/
def pyLower (s : String) : String :=
  String.mk (s.data.map Char.toLower)

/-- Models Python `str.zfill(width)`: left-pad with `'0'` up to `width`
characters, keeping a leading sign character in front of the padding;
a string already at least `width` long is returned unchanged. -/
def pyZfill (s : String) (width : Nat) : String :=
  if width ≤ s.length then s
  else
    let pad := List.replicate (width - s.length) '0'
    match s.data with
    | c :: cs => if c = '+' ∨ c = '-' then String.mk (c :: (pad ++ cs))
                 else String.mk (pad ++ (c :: cs))
    | [] => String.mk pad

/-- Models Python `" ".join(xs)`. -/
def joinSpace : List String → String
  | [] => ""
  | [s] => s
  | s :: rest => s ++ " " ++ joinSpace rest

/-- Does `hay` start with `needle`? (helper for Python's `in`). -/
def leadsWith : List Char → List Char → Bool
  | [], _ => true
  | _ :: _, [] => false
  | a :: as, b :: bs => a = b && leadsWith as bs

/-- Models Python's substring test `needle in hay`. -/
def containsSub : List Char → List Char → Bool
  | needle, [] => leadsWith needle []
  | needle, c :: t => leadsWith needle (c :: t) || containsSub needle t

/- ===================== Model of Python textwrap.wrap ===================== -/

/-- Models `textwrap` whitespace munging (`expand_tabs` / `replace_whitespace`
defaults): each whitespace character becomes a plain space. -/
def replaceWS (c : Char) : Char := if isPyWS c then ' ' else c

/-- Split a character list into maximal runs of spaces / non-spaces:
the chunk list built by `textwrap`'s word splitter for plain text
(hyphen and em-dash splitting of `break_on_hyphens` not modelled; no
input considered here contains them). -/
def chunksOf : List Char → List (List Char)
  | [] => []
  | c :: cs =>
    match chunksOf cs with
    | [] => [[c]]
    | [] :: rest => [c] :: [] :: rest
    | (d :: ds) :: rest =>
      if (c == ' ') = (d == ' ') then (c :: d :: ds) :: rest
      else [c] :: (d :: ds) :: rest

/-- Greedy fill of one line (`textwrap._wrap_chunks` inner loop): take
chunks while the running length stays within `width`; return the taken
chunks and the remainder. -/
def fillLine (width : Nat) : Nat → List (List Char) → List (List Char) × List (List Char)
  | _, [] => ([], [])
  | curLen, ch :: rest =>
    if curLen + ch.length ≤ width then
      let p := fillLine width (curLen + ch.length) rest
      (ch :: p.1, p.2)
    else ([], ch :: rest)

def totalLen (l : List (List Char)) : Nat := (l.map List.length).sum

/-- A chunk that `str.strip()`s to the empty string (all spaces). -/
def isSpaceChunk (ch : List Char) : Bool := ch.all (fun c => c = ' ')

/-- Drop one trailing whitespace chunk from a built line
(`drop_whitespace` handling at the end of a line). -/
def dropTrailing (l : List (List Char)) : List (List Char) :=
  match l.getLast? with
  | some ch => if isSpaceChunk ch then l.dropLast else l
  | none => []

/-- One-line-at-a-time loop of `textwrap._wrap_chunks` (defaults:
`drop_whitespace`, `break_long_words`, no `max_lines`), fuelled for
termination.  The Boolean records whether a line has been produced yet
(leading whitespace is only dropped after the first line). -/
def wrapChunksF (width : Nat) : Nat → List (List Char) → Bool → List (List Char)
  | 0, _, _ => []
  | _ + 1, [], _ => []
  | fuel + 1, chs@(ch0 :: rest0), hasLines =>
    let chs1 := if hasLines && isSpaceChunk ch0 then rest0 else chs
    let p := fillLine width 0 chs1
    let withLong :=
      match p.2 with
      | ch :: r2 =>
        if width < ch.length then
          let spaceLeft := if width < 1 then 1 else width - totalLen p.1
          (p.1 ++ [ch.take spaceLeft], ch.drop spaceLeft :: r2)
        else (p.1, p.2)
      | [] => (p.1, ([] : List (List Char)))
    let cur := dropTrailing withLong.1
    match cur with
    | [] => wrapChunksF width fuel withLong.2 hasLines
    | _ => cur.flatten :: wrapChunksF width fuel withLong.2 true

/-- Models Python `textwrap.wrap(text, width)` with default options, for
text whose chunks are space runs and words (no hyphen splitting). -/
def pyWrap (width : Nat) (text : String) : List String :=
  let cs := text.data.map replaceWS
  let chunks := chunksOf cs
  (wrapChunksF width (cs.length + chunks.length + 2) chunks false).map String.mk

/- ===================== Model of PIL images ===================== -/

/-- A pixel with red, green, blue and alpha channels (0–255). -/
structure RGBA where
  r : Nat
  g : Nat
  b : Nat
  a : Nat
deriving DecidableEq

/-- An RGBA image: dimensions plus a total pixel function (pixels outside
the canvas are irrelevant to every operation modelled here). -/
structure Img where
  width : Nat
  height : Nat
  px : Int → Int → RGBA

/-- A PIL mode-"L" (grayscale) image, used as a mask. -/
structure GrayImg where
  width : Nat
  height : Nat
  px : Int → Int → Nat

/-- Models `Image.new("RGBA", (w, h), c)`. -/
def imageNewRGBA (w h : Nat) (c : RGBA) : Img := ⟨w, h, fun _ _ => c⟩

/-- Squared Euclidean distance between integer points. -/
def sqDist (x y cx cy : Int) : Int := (x - cx) ^ 2 + (y - cy) ^ 2

/-- Membership in the filled rounded rectangle drawn by PIL's
`ImageDraw.rounded_rectangle((x0, y0, x1, y1), radius=r, fill=255)`:
the two axis-aligned bands plus the four corner quarter-disks
(corner arcs modelled as exact disks; the claims only use points far
from the arc boundary). -/
def inRoundedRect (x0 y0 x1 y1 r x y : Int) : Bool :=
  (x0 ≤ x && x ≤ x1 && y0 + r ≤ y && y ≤ y1 - r) ||
  (x0 + r ≤ x && x ≤ x1 - r && y0 ≤ y && y ≤ y1) ||
  sqDist x y (x0 + r) (y0 + r) ≤ r * r ||
  sqDist x y (x1 - r) (y0 + r) ≤ r * r ||
  sqDist x y (x0 + r) (y1 - r) ≤ r * r ||
  sqDist x y (x1 - r) (y1 - r) ≤ r * r

/-- The mask image produced by drawing a filled rounded rectangle on a
zero-initialised "L" image of size `w × h`. -/
def roundedRectMask (w h : Nat) (x0 y0 x1 y1 r : Int) : GrayImg :=
  ⟨w, h, fun x y => if inRoundedRect x0 y0 x1 y1 r x y then 255 else 0⟩

/-- Models `img.putalpha(mask)`: replace the alpha channel with the mask. -/
def putalpha (img : Img) (m : GrayImg) : Img :=
  { img with px := fun x y => { img.px x y with a := m.px x y } }

/-- Models `dst.paste(src, (ox, oy))` without a mask: copy the source
rectangle over the destination. -/
def pastePlain (dst src : Img) (ox oy : Int) : Img :=
  { dst with px := fun x y =>
      if ox ≤ x ∧ x < ox + src.width ∧ oy ≤ y ∧ y < oy + src.height then
        src.px (x - ox) (y - oy)
      else dst.px x y }

/-- Per-channel alpha blend used by `paste` with an RGBA mask. -/
def blend (s d m : Nat) : Nat := (s * m + d * (255 - m)) / 255

/-- Models `dst.paste(src, (ox, oy), mask)` where `mask` is an RGBA image
(PIL uses its alpha band as the paste mask). -/
def pasteMask (dst src : Img) (ox oy : Int) (mask : Img) : Img :=
  { dst with px := fun x y =>
      if ox ≤ x ∧ x < ox + src.width ∧ oy ≤ y ∧ y < oy + src.height then
        let sp := src.px (x - ox) (y - oy)
        let dp := dst.px x y
        let mv := (mask.px (x - ox) (y - oy)).a
        ⟨blend sp.r dp.r mv, blend sp.g dp.g mv, blend sp.b dp.b mv,
         blend sp.a dp.a mv⟩
      else dst.px x y }

/-- Models `img.resize((w, h), Image.Resampling.LANCZOS)`: the output has
the requested dimensions; the resampled pixel values are supplied by the
(external) resampling function. -/
def resizeTo (w h : Nat) (resampled : Int → Int → RGBA) : Img :=
  ⟨w, h, resampled⟩

/- ===================== Model of the qrcode library ===================== -/

/-- `qrcode.ERROR_CORRECT_M` (numeric constants of the qrcode library). -/
def ERROR_CORRECT_M : Nat := 0

/-- `qrcode.ERROR_CORRECT_L`. -/
def ERROR_CORRECT_L : Nat := 1

/-- `qrcode.ERROR_CORRECT_H`. -/
def ERROR_CORRECT_H : Nat := 2

/-- `qrcode.ERROR_CORRECT_Q`. -/
def ERROR_CORRECT_Q : Nat := 3

/-- Percentage of symbol damage each error-correction level can recover
(QR standard: L 7%, M 15%, Q 25%, H 30%). -/
def ecRecoveryPercent (level : Nat) : Nat :=
  if level = ERROR_CORRECT_L then 7
  else if level = ERROR_CORRECT_M then 15
  else if level = ERROR_CORRECT_Q then 25
  else if level = ERROR_CORRECT_H then 30
  else 0

/-- The constructor arguments of a `qrcode.QRCode(...)` call. -/
structure QRParams where
  version : Option Nat
  errorCorrection : Nat
  boxSize : Nat
  border : Nat
deriving DecidableEq

/- ===================== Model of PIL fonts ===================== -/

/-- A font handle: either a truetype font loaded from a named file at a
requested size, or the built-in default font (`ImageFont.load_default()`). -/
inductive Font where
  | truetype (path : String) (size : Nat)
  | builtinDefault
deriving DecidableEq

/-- Sequential try/except loop over candidate font files: return a handle
for the first file the environment can load (`loadable`), else the
built-in default.  Models the `for ... try: return ImageFont.truetype
... except: pass` pattern followed by `ImageFont.load_default()`. -/
def tryFonts (loadable : String → Bool) (size : Nat) : List String → Font
  | [] => Font.builtinDefault
  | p :: rest => if loadable p then Font.truetype p size else tryFonts loadable size rest

/- ===================== generate_badges-for-test.py ===================== -/

namespace FT

def W : Int := 600

def H : Int := 850

def QR_SIZE : Nat := 380

def BORDER : Nat := 22

def QR_TOTAL : Nat := QR_SIZE + 2 * BORDER

/-- Candidate font files of `F(size, bold)` in order. -/
def fontNames (bold : Bool) : List String :=
  [if bold then "arialbd.ttf" else "arial.ttf",
   if bold then "DejaVuSans-Bold.ttf" else "DejaVuSans.ttf",
   if bold then "Helvetica-Bold.ttf" else "Helvetica.ttf"]

/-- `F(size, bold)`: the font loader, over an abstract loading
environment `loadable`. -/
def F (loadable : String → Bool) (size : Nat) (bold : Bool) : Font :=
  tryFonts loadable size (fontNames bold)

/-- The `qrcode.QRCode(...)` arguments used by `make_qr_badge` (the
payload is added afterwards via `add_data`; no constructor argument
depends on it). -/
def qrParams (_data : String) : QRParams :=
  { version := none, errorCorrection := ERROR_CORRECT_H, boxSize := 10, border := 2 }

/-- `make_qr_badge(data)`.  External steps are parameters: `encodeQR`
stands for `qrcode`'s rasterisation of the payload, `lanczos` for the
LANCZOS resampling of that bitmap to the target size. -/
def make_qr_badge (encodeQR : String → Img) (lanczos : Img → Nat → Nat → Int → Int → RGBA)
    (data : String) : Img :=
  let img0 := encodeQR data
  let img := resizeTo QR_SIZE QR_SIZE (lanczos img0 QR_SIZE QR_SIZE)
  let badge := imageNewRGBA QR_TOTAL QR_TOTAL ⟨255, 255, 255, 255⟩
  let mask := roundedRectMask QR_SIZE QR_SIZE 0 0 ((QR_SIZE : Int) - 1) ((QR_SIZE : Int) - 1) 34
  let rounded_qr := putalpha (pastePlain (imageNewRGBA QR_SIZE QR_SIZE ⟨0, 0, 0, 0⟩) img 0 0) mask
  let badge1 := pasteMask badge rounded_qr (BORDER : Int) (BORDER : Int) rounded_qr
  let full_mask := roundedRectMask QR_TOTAL QR_TOTAL 0 0 ((QR_TOTAL : Int) - 1) ((QR_TOTAL : Int) - 1) 42
  putalpha badge1 full_mask

/-- The x coordinate computed by `draw_centered` for a text whose
measured width (`draw.textbbox((0,0), text, font)[2]`) is given by the
abstract font-metric function `measure`: `(W - w) // 2`. -/
def draw_centered_x (measure : String → Int) (text : String) : Int :=
  Int.fdiv (W - measure text) 2

/-- One text line drawn by `draw_centered`: text, y offset, font size,
RGB colour. -/
structure TextLine where
  text : String
  y : Int
  size : Nat
  color : Nat × Nat × Nat
deriving DecidableEq

/-- The name block drawn by the main loop (lines 113–125 of the script):
measure the name; if wider than `W - 100`, wrap at 22 characters; with
at least two wrapped lines draw `wrapped[0]` and `" ".join(wrapped[1:3])`,
otherwise draw the whole name on one line. -/
def nameLines (measure : String → Int) (name : String) : List TextLine :=
  if measure name > W - 100 then
    let wrapped := pyWrap 22 name
    if 2 ≤ wrapped.length then
      [⟨wrapped.headD "", 60, 40, (255, 255, 255)⟩,
       ⟨joinSpace ((wrapped.drop 1).take 2), 100, 40, (220, 240, 255)⟩]
    else
      [⟨name, 70, 40, (255, 255, 255)⟩]
  else
    [⟨name, 70, 40, (255, 255, 255)⟩]

/-- One participant record of `participants-test.json` (absent keys are
`none`; JSON numbers appear through `str(...)` as their decimal text). -/
structure Rec where
  name? : Option String
  id? : Option String
  studentBranch? : Option String

/-- Everything the script draws and writes for one surviving record. -/
structure Badge where
  name : String
  pid : String
  pbranch : String
  nameBlock : List TextLine
  file : String

/-- One iteration of the main loop: field extraction with defaults, the
skip test, and the composed badge (`None` when the record is skipped). -/
def processRecord (measure : String → Int) (p : Rec) : Option Badge :=
  let name := pyUpper (pyStrip (p.name?.getD "No Name"))
  let pid := pyZfill (p.id?.getD "000") 3
  let pbranch := pyZfill (p.studentBranch?.getD "0000") 3
  if name = "" ∨ name = "NO NAME" then none
  else some { name := name, pid := pid, pbranch := pbranch,
              nameBlock := nameLines measure name,
              file := "badges-enis/" ++ pid ++ ".jpg" }

/-- The whole run: the list of files written and how many badges were
generated. -/
def mainLoop (measure : String → Int) : List Rec → List String × Nat
  | [] => ([], 0)
  | p :: ps =>
    let rest := mainLoop measure ps
    match processRecord measure p with
    | some b => (b.file :: rest.1, rest.2 + 1)
    | none => rest

end FT

/- ===================== generate_badges2.py ===================== -/

namespace V2

def W : Int := 600

def H : Int := 850

def QR_SIZE : Nat := 280

def BORDER : Nat := 15

def QR_TOTAL : Nat := QR_SIZE + 2 * BORDER

/-- Candidate font files of `F(size, bold)` in order. -/
def fontNames (bold : Bool) : List String :=
  [if bold then "arialbd.ttf" else "arial.ttf",
   if bold then "DejaVuSans-Bold.ttf" else "DejaVuSans.ttf",
   if bold then "Helvetica-Bold.ttf" else "Helvetica.ttf"]

/-- `F(size, bold)`: the font loader, over an abstract loading
environment `loadable`. -/
def F (loadable : String → Bool) (size : Nat) (bold : Bool) : Font :=
  tryFonts loadable size (fontNames bold)

/-- The `qrcode.QRCode(...)` arguments used by `make_qr_badge`. -/
def qrParams (_data : String) : QRParams :=
  { version := none, errorCorrection := ERROR_CORRECT_H, boxSize := 10, border := 2 }

/-- `make_qr_badge(data)` of `generate_badges2.py` (the background square
is created fully transparent here, `(255, 255, 255, 0)`, and the outer
rounding radius is 30). -/
def make_qr_badge (encodeQR : String → Img) (lanczos : Img → Nat → Nat → Int → Int → RGBA)
    (data : String) : Img :=
  let img0 := encodeQR data
  let img := resizeTo QR_SIZE QR_SIZE (lanczos img0 QR_SIZE QR_SIZE)
  let badge := imageNewRGBA QR_TOTAL QR_TOTAL ⟨255, 255, 255, 0⟩
  let mask := roundedRectMask QR_SIZE QR_SIZE 0 0 ((QR_SIZE : Int) - 1) ((QR_SIZE : Int) - 1) 30
  let rounded_qr := putalpha (pastePlain (imageNewRGBA QR_SIZE QR_SIZE ⟨0, 0, 0, 0⟩) img 0 0) mask
  let badge1 := pasteMask badge rounded_qr (BORDER : Int) (BORDER : Int) rounded_qr
  let full_mask := roundedRectMask QR_TOTAL QR_TOTAL 0 0 ((QR_TOTAL : Int) - 1) ((QR_TOTAL : Int) - 1) 30
  putalpha badge1 full_mask

/-- The x coordinate computed by `draw_centered` (here the measured width
is `bbox[2] - bbox[0]`, again abstracted as `measure`): `(W - w) // 2`. -/
def draw_centered_x (measure : String → Int) (text : String) : Int :=
  Int.fdiv (W - measure text) 2

/-- One participant record of `participants-test.json` for this variant. -/
structure Rec where
  fullName? : Option String
  branch? : Option String
  id? : Option String

/-- Everything the script draws and writes for one surviving record. -/
structure Badge where
  name : String
  branch : String
  pid : String
  file : String

/-- One iteration of the main loop of `generate_badges2.py`. -/
def processRecord (p : Rec) : Option Badge :=
  let name := pyUpper (pyStrip (p.fullName?.getD "No Name"))
  let branch := pyUpper (pyStrip (p.branch?.getD ""))
  let pid := pyZfill (p.id?.getD "000") 3
  if name = "" ∨ name = "NO NAME" ∨ name = " " then none
  else some { name := name, branch := branch, pid := pid,
              file := "badges/" ++ pid ++ ".pdf" }

/-- The whole run: files written and number of badges generated. -/
def mainLoop : List Rec → List String × Nat
  | [] => ([], 0)
  | p :: ps =>
    let rest := mainLoop ps
    match processRecord p with
    | some b => (b.file :: rest.1, rest.2 + 1)
    | none => rest

end V2

/- ===================== generate_badges.py ===================== -/

namespace Main

def WIDTH : Nat := 1120

def HEIGHT : Nat := 1580

def QR_SIZE : Nat := 700

/-- Candidate font files of `get_font(size, bold)`, flattened in the
order the nested loops try them. -/
def fontNames (bold : Bool) : List String :=
  [if bold then "arialbd.ttf" else "arial.ttf", "Arial.ttf",
   if bold then "HelveticaBd.ttf" else "Helvetica.ttf",
   if bold then "DejaVuSans-Bold.ttf" else "DejaVuSans.ttf"]

/-- `get_font(size, bold)`, over an abstract loading environment. -/
def get_font (loadable : String → Bool) (size : Nat) (bold : Bool) : Font :=
  tryFonts loadable size (fontNames bold)

/-- The `qrcode.QRCode(...)` arguments of `generate_qr_code`. -/
def qrParams (_data : String) : QRParams :=
  { version := some 1, errorCorrection := ERROR_CORRECT_H, boxSize := 15, border := 4 }

/-- The x coordinate computed by `draw_centered_text`: here Python's true
division `(width - text_width) / 2` produces an exact (float) value,
modelled in ℚ. -/
def draw_centered_text_x (textWidth width : ℚ) : ℚ := (width - textWidth) / 2

/-- `"challenger" in role.lower()` (substring test on character lists). -/
def roleIsChallenger (role : String) : Bool :=
  containsSub "challenger".data (pyLower role).data

/-- One participant record of `participants.json`. -/
structure Rec where
  fullName? : Option String
  role? : Option String
  id? : Option String

/-- Everything `create_badge` draws and writes for one accepted record. -/
structure Badge where
  name : String
  roleText : String
  pid : String
  file : String

/-- `create_badge(person, ...)`: field extraction with defaults, the
skip test, and the file path written (`{folder}/{participant_id}.png`
with the raw, unpadded identifier). -/
def create_badge (person : Rec) : Option Badge :=
  let full_name := pyStrip (person.fullName?.getD "Unknown")
  let role := pyStrip (person.role?.getD "Participant")
  let participant_id := person.id?.getD "NO-ID"
  if full_name = "" ∨ full_name = "Unknown" then none
  else some { name := full_name, roleText := pyUpper role, pid := participant_id,
              file := "badges/" ++ participant_id ++ ".png" }

/-- The `main()` loop: files written and the success count printed in the
end-of-run summary. -/
def mainLoop : List Rec → List String × Nat
  | [] => ([], 0)
  | p :: ps =>
    let rest := mainLoop ps
    match create_badge p with
    | some b => (b.file :: rest.1, rest.2 + 1)
    | none => rest

end Main

/- ===================== Helper lemmas ===================== -/

lemma tryFonts_of_all_fail (loadable : String → Bool) (size : Nat) :
    ∀ l : List String, (∀ p ∈ l, loadable p = false) →
      tryFonts loadable size l = Font.builtinDefault := by
  intro l
  induction l with
  | nil => intro _; rfl
  | cons p rest ih =>
    intro h
    simp only [tryFonts]
    rw [h p (by simp), if_neg (by simp)]
    exact ih fun q hq => h q (by simp [hq])

lemma tryFonts_cases (loadable : String → Bool) (size : Nat) :
    ∀ l : List String,
      tryFonts loadable size l = Font.builtinDefault ∨
      ∃ p ∈ l, loadable p = true ∧ tryFonts loadable size l = Font.truetype p size := by
  intro l
  induction l with
  | nil => exact Or.inl rfl
  | cons p rest ih =>
    by_cases hp : loadable p = true
    · exact Or.inr ⟨p, by simp, hp, by simp [tryFonts, hp]⟩
    · have hl : tryFonts loadable size (p :: rest) = tryFonts loadable size rest := by
        simp only [tryFonts]
        rw [if_neg (by simpa using hp)]
      rcases ih with h | ⟨q, hq, hlq, he⟩
      · exact Or.inl (hl.trans h)
      · exact Or.inr ⟨q, by simp [hq], hlq, hl.trans he⟩

lemma two_mul_fdiv_two (n : Int) : 2 * Int.fdiv n 2 = n ∨ 2 * Int.fdiv n 2 = n - 1 := by
  have h1 := Int.fdiv_add_fmod n 2
  have h2 : Int.fmod n 2 = n % 2 := by simp [Int.fmod_eq_emod]
  omega

lemma fdiv_two_half_bound (n : Int) :
    |((Int.fdiv n 2 : Int) : ℚ) - (n : ℚ) / 2| ≤ 1 / 2 := by
  rcases two_mul_fdiv_two n with h | h
  · have hq : ((Int.fdiv n 2 : Int) : ℚ) = (n : ℚ) / 2 := by
      have := congrArg (fun z : Int => (z : ℚ)) h
      push_cast at this
      linarith
    rw [hq]
    simp
  · have hq : ((Int.fdiv n 2 : Int) : ℚ) = ((n : ℚ) - 1) / 2 := by
      have := congrArg (fun z : Int => (z : ℚ)) h
      push_cast at this
      linarith
    rw [hq]
    rw [abs_le]
    constructor <;> linarith

/- ===================== Claim theorems ===================== -/

/-- C7: every QR construction in every variant uses the fixed
error-correction level `ERROR_CORRECT_H`; the constructor arguments never
depend on the payload, and level H tolerates at least 25% symbol damage. -/
theorem claim_C7 (d d' : String) :
    FT.qrParams d = FT.qrParams d' ∧
    V2.qrParams d = V2.qrParams d' ∧
    Main.qrParams d = Main.qrParams d' ∧
    (FT.qrParams d).errorCorrection = ERROR_CORRECT_H ∧
    (V2.qrParams d).errorCorrection = ERROR_CORRECT_H ∧
    (Main.qrParams d).errorCorrection = ERROR_CORRECT_H ∧
    25 ≤ ecRecoveryPercent ERROR_CORRECT_H :=
  ⟨rfl, rfl, rfl, rfl, rfl, rfl, by decide⟩

/-- C9: each font loader is total over any loading environment — the
result is either the first candidate that loads or the built-in default
font; in particular when every candidate fails to load, the loader
returns the built-in default instead of propagating the failure. -/
theorem claim_C9 (loadable : String → Bool) (size : Nat) (bold : Bool) :
    ((∀ p ∈ FT.fontNames bold, loadable p = false) →
        FT.F loadable size bold = Font.builtinDefault) ∧
    ((∀ p ∈ V2.fontNames bold, loadable p = false) →
        V2.F loadable size bold = Font.builtinDefault) ∧
    ((∀ p ∈ Main.fontNames bold, loadable p = false) →
        Main.get_font loadable size bold = Font.builtinDefault) ∧
    (FT.F loadable size bold = Font.builtinDefault ∨
      ∃ p ∈ FT.fontNames bold, loadable p = true ∧
        FT.F loadable size bold = Font.truetype p size) ∧
    (Main.get_font loadable size bold = Font.builtinDefault ∨
      ∃ p ∈ Main.fontNames bold, loadable p = true ∧
        Main.get_font loadable size bold = Font.truetype p size) := by
  refine ⟨?_, ?_, ?_, ?_, ?_⟩
  · exact tryFonts_of_all_fail loadable size _
  · exact tryFonts_of_all_fail loadable size _
  · exact tryFonts_of_all_fail loadable size _
  · exact tryFonts_cases loadable size _
  · exact tryFonts_cases loadable size _

/-- Witness for C9 at a concrete environment in which no font loads. -/
theorem claim_C9_witness :
    FT.F (fun _ => false) 40 true = Font.builtinDefault ∧
    Main.get_font (fun _ => false) 85 true = Font.builtinDefault :=
  ⟨(claim_C9 (fun _ => false) 40 true).1 (fun _ _ => rfl),
   (claim_C9 (fun _ => false) 85 true).2.2.1 (fun _ _ => rfl)⟩

/-- C2 (amended): the JPEG variant writes `badges-enis/{id.zfill(3)}.jpg`
and the two-page PDF variant writes `badges/{id.zfill(3)}.pdf`, i.e. the
file is named by the zero-padded identifier; the single-page PNG variant
(`generate_badges.py`) instead names the file by the raw identifier with
no zero-padding, `badges/{id}.png`. -/
theorem claim_C2 :
    (∀ (measure : String → Int) (p : FT.Rec) (b : FT.Badge),
        FT.processRecord measure p = some b →
        b.file = "badges-enis/" ++ pyZfill (p.id?.getD "000") 3 ++ ".jpg") ∧
    (∀ (p : V2.Rec) (b : V2.Badge),
        V2.processRecord p = some b →
        b.file = "badges/" ++ pyZfill (p.id?.getD "000") 3 ++ ".pdf") ∧
    (∀ (p : Main.Rec) (b : Main.Badge),
        Main.create_badge p = some b →
        b.file = "badges/" ++ (p.id?.getD "NO-ID") ++ ".png") := by
  refine ⟨?_, ?_, ?_⟩
  · intro measure p b h
    by_cases hc : pyUpper (pyStrip (p.name?.getD "No Name")) = "" ∨
        pyUpper (pyStrip (p.name?.getD "No Name")) = "NO NAME"
    · simp [FT.processRecord, hc] at h
    · simp [FT.processRecord, hc] at h
      rw [← h]
  · intro p b h
    by_cases hc : pyUpper (pyStrip (p.fullName?.getD "No Name")) = "" ∨
        pyUpper (pyStrip (p.fullName?.getD "No Name")) = "NO NAME" ∨
        pyUpper (pyStrip (p.fullName?.getD "No Name")) = " "
    · simp [V2.processRecord, hc] at h
    · simp [V2.processRecord, hc] at h
      rw [← h]
  · intro p b h
    by_cases hc : pyStrip (p.fullName?.getD "Unknown") = "" ∨
        pyStrip (p.fullName?.getD "Unknown") = "Unknown"
    · simp [Main.create_badge, hc] at h
    · simp [Main.create_badge, hc] at h
      rw [← h]

/-- Counterexample to C2 as stated: in the single-page raster variant
`generate_badges.py`, the surviving record with identifier "7" is written
to `badges/7.png`, not to the zero-padded `badges/007.png`. -/
theorem claim_C2_cex :
    (Main.create_badge ⟨some "JOHN SMITH", some "Challenger", some "7"⟩).map Main.Badge.file
        = some "badges/7.png" ∧
    "badges/7.png" ≠ "badges/" ++ pyZfill "7" 3 ++ ".png" := by
  constructor
  · rfl
  · decide

/-- Witness for C2 at a concrete record of the JPEG variant. -/
theorem claim_C2_witness :
    (FT.processRecord (fun _ => 0) ⟨some "JOHN SMITH", some "7", none⟩).map FT.Badge.file
        = some ("badges-enis/" ++ pyZfill "7" 3 ++ ".jpg") := by
  have hq : FT.processRecord (fun _ => 0) ⟨some "JOHN SMITH", some "7", none⟩ =
      some { name := pyUpper (pyStrip "JOHN SMITH"), pid := pyZfill "7" 3,
             pbranch := pyZfill "0000" 3,
             nameBlock := FT.nameLines (fun _ => 0) (pyUpper (pyStrip "JOHN SMITH")),
             file := "badges-enis/" ++ pyZfill "7" 3 ++ ".jpg" } := by rfl
  have h := claim_C2.1 (fun _ => 0) ⟨some "JOHN SMITH", some "7", none⟩ _ hq
  rw [hq]
  simp [h]

/-- C8: in each variant a record whose processed name is empty or equal
to the placeholder is skipped: the per-record processing yields nothing
(no drawing, no file), and the run on the remaining records is exactly
the run without that record — it contributes neither a file nor a unit
to the success count. -/
theorem claim_C8 :
    (∀ (measure : String → Int) (p : FT.Rec) (ps : List FT.Rec),
        pyUpper (pyStrip (p.name?.getD "No Name")) = "" ∨
          pyUpper (pyStrip (p.name?.getD "No Name")) = "NO NAME" →
        FT.processRecord measure p = none ∧
          FT.mainLoop measure (p :: ps) = FT.mainLoop measure ps) ∧
    (∀ (p : V2.Rec) (ps : List V2.Rec),
        pyUpper (pyStrip (p.fullName?.getD "No Name")) = "" ∨
          pyUpper (pyStrip (p.fullName?.getD "No Name")) = "NO NAME" →
        V2.processRecord p = none ∧ V2.mainLoop (p :: ps) = V2.mainLoop ps) ∧
    (∀ (p : Main.Rec) (ps : List Main.Rec),
        pyStrip (p.fullName?.getD "Unknown") = "" ∨
          pyStrip (p.fullName?.getD "Unknown") = "Unknown" →
        Main.create_badge p = none ∧ Main.mainLoop (p :: ps) = Main.mainLoop ps) := by
  refine ⟨?_, ?_, ?_⟩
  · intro measure p ps h
    have hnone : FT.processRecord measure p = none := by
      unfold FT.processRecord
      rw [if_pos h]
    refine ⟨hnone, ?_⟩
    rw [FT.mainLoop, hnone]
  · intro p ps h
    have hnone : V2.processRecord p = none := by
      unfold V2.processRecord
      rw [if_pos (by tauto)]
    refine ⟨hnone, ?_⟩
    rw [V2.mainLoop, hnone]
  · intro p ps h
    have hnone : Main.create_badge p = none := by
      unfold Main.create_badge
      rw [if_pos h]
    refine ⟨hnone, ?_⟩
    rw [Main.mainLoop, hnone]

/-- Witness for C8 at concrete skipped records: a whitespace-only name in
the JPEG variant and the literal placeholder name in the PNG variant. -/
theorem claim_C8_witness :
    (FT.processRecord (fun _ => 0) ⟨some "   ", some "7", none⟩ = none ∧
      FT.mainLoop (fun _ => 0) (⟨some "   ", some "7", none⟩ :: []) =
        FT.mainLoop (fun _ => 0) []) ∧
    (Main.create_badge ⟨some "Unknown", some "Visitor", some "9"⟩ = none ∧
      Main.mainLoop (⟨some "Unknown", some "Visitor", some "9"⟩ :: []) = Main.mainLoop []) :=
  ⟨claim_C8.1 (fun _ => 0) ⟨some "   ", some "7", none⟩ [] (Or.inl (by decide)),
   claim_C8.2.2 ⟨some "Unknown", some "Visitor", some "9"⟩ [] (Or.inr (by decide))⟩

/-- C6: for every text line, over any font-metric function, the centering
offset computed by each variant satisfies
`xOffset + measuredWidth/2 = canvasWidth/2` to within half a pixel (so
certainly within the 1-pixel tolerance), and it is a function of that
line's own measured width alone. -/
theorem claim_C6 :
    (∀ (measure : String → Int) (text : String),
        |((FT.draw_centered_x measure text : Int) : ℚ) + ((measure text : Int) : ℚ) / 2
            - ((FT.W : Int) : ℚ) / 2| ≤ 1) ∧
    (∀ (measure : String → Int) (text : String),
        |((V2.draw_centered_x measure text : Int) : ℚ) + ((measure text : Int) : ℚ) / 2
            - ((V2.W : Int) : ℚ) / 2| ≤ 1) ∧
    (∀ textWidth width : ℚ,
        |Main.draw_centered_text_x textWidth width + textWidth / 2 - width / 2| ≤ 1) := by
  refine ⟨?_, ?_, ?_⟩
  · intro measure text
    have h := fdiv_two_half_bound ((FT.W : Int) - measure text)
    unfold FT.draw_centered_x
    have hcast : (((FT.W : Int) - measure text : Int) : ℚ)
        = ((FT.W : Int) : ℚ) - ((measure text : Int) : ℚ) := by push_cast; ring
    rw [hcast] at h
    calc |((Int.fdiv ((FT.W : Int) - measure text) 2 : Int) : ℚ)
            + ((measure text : Int) : ℚ) / 2 - ((FT.W : Int) : ℚ) / 2|
        = |((Int.fdiv ((FT.W : Int) - measure text) 2 : Int) : ℚ)
            - (((FT.W : Int) : ℚ) - ((measure text : Int) : ℚ)) / 2| := by ring_nf
      _ ≤ 1 / 2 := h
      _ ≤ 1 := by norm_num
  · intro measure text
    have h := fdiv_two_half_bound ((V2.W : Int) - measure text)
    unfold V2.draw_centered_x
    have hcast : (((V2.W : Int) - measure text : Int) : ℚ)
        = ((V2.W : Int) : ℚ) - ((measure text : Int) : ℚ) := by push_cast; ring
    rw [hcast] at h
    calc |((Int.fdiv ((V2.W : Int) - measure text) 2 : Int) : ℚ)
            + ((measure text : Int) : ℚ) / 2 - ((V2.W : Int) : ℚ) / 2|
        = |((Int.fdiv ((V2.W : Int) - measure text) 2 : Int) : ℚ)
            - (((V2.W : Int) : ℚ) - ((measure text : Int) : ℚ)) / 2| := by ring_nf
      _ ≤ 1 / 2 := h
      _ ≤ 1 := by norm_num
  · intro textWidth width
    unfold Main.draw_centered_text_x
    have : (width - textWidth) / 2 + textWidth / 2 - width / 2 = 0 := by ring
    rw [this]
    simp

/-- C3: whenever the measured name width exceeds the single-line
threshold `W - 100`, the composed badge contains at most 2 name lines,
whatever the wrap produced; and when the 22-character wrap yields at
least two candidate lines, line 1 is the first wrapped line and line 2
is the join of at most two further wrapped lines (`wrapped[1:3]`), all
later wrapped lines being dropped. -/
theorem claim_C3 (measure : String → Int) (name : String)
    (h : measure name > FT.W - 100) :
    (FT.nameLines measure name).length ≤ 2 ∧
    (2 ≤ (pyWrap 22 name).length →
      FT.nameLines measure name =
        [⟨(pyWrap 22 name).headD "", 60, 40, (255, 255, 255)⟩,
         ⟨joinSpace (((pyWrap 22 name).drop 1).take 2), 100, 40, (220, 240, 255)⟩]) := by
  unfold FT.nameLines
  rw [if_pos h]
  by_cases h2 : 2 ≤ (pyWrap 22 name).length
  · rw [if_pos h2]
    exact ⟨by simp, fun _ => rfl⟩
  · rw [if_neg h2]
    exact ⟨by simp, fun hc => absurd hc h2⟩

/-- Witness for C3: a 46-character name, with a metric of 30 px per
character, wraps to three candidate lines of which only two are kept. -/
theorem claim_C3_witness :
    (FT.nameLines (fun s => 30 * (s.length : Int))
        "MOHAMED AMINE BEN ABDALLAH EL FEHRI DE LA TOUR").length ≤ 2 ∧
    FT.nameLines (fun s => 30 * (s.length : Int))
        "MOHAMED AMINE BEN ABDALLAH EL FEHRI DE LA TOUR" =
      [⟨"MOHAMED AMINE BEN", 60, 40, (255, 255, 255)⟩,
       ⟨"ABDALLAH EL FEHRI DE LA TOUR", 100, 40, (220, 240, 255)⟩] := by
  have h := claim_C3 (fun s => 30 * (s.length : Int))
      "MOHAMED AMINE BEN ABDALLAH EL FEHRI DE LA TOUR" (by decide)
  exact ⟨h.1, (h.2 (by decide)).trans (by decide)⟩

/-- C4 (amended): the layout takes the no-wrap branch exactly when the
measured width is at most `W - 100`; above the threshold it word-wraps
with the fixed character count 22 (independent of the font metric); the
final render is a single line iff the width fits the threshold or the
22-character wrap produced fewer than two lines (degenerate fallback). -/
theorem claim_C4 (measure : String → Int) (name : String) :
    ((FT.nameLines measure name).length = 1 ↔
      measure name ≤ FT.W - 100 ∨ (pyWrap 22 name).length ≤ 1) ∧
    (measure name > FT.W - 100 →
      FT.nameLines measure name =
        if 2 ≤ (pyWrap 22 name).length then
          [⟨(pyWrap 22 name).headD "", 60, 40, (255, 255, 255)⟩,
           ⟨joinSpace (((pyWrap 22 name).drop 1).take 2), 100, 40, (220, 240, 255)⟩]
        else [⟨name, 70, 40, (255, 255, 255)⟩]) := by
  constructor
  · unfold FT.nameLines
    by_cases h : measure name > FT.W - 100
    · rw [if_pos h]
      by_cases h2 : 2 ≤ (pyWrap 22 name).length
      · rw [if_pos h2]
        simp only [List.length_cons, List.length_nil]
        constructor
        · intro hh
          omega
        · intro hh
          omega
      · rw [if_neg h2]
        simp only [List.length_cons, List.length_nil]
        constructor
        · intro hh
          omega
        · intro hh
          trivial
    · rw [if_neg h]
      simp only [List.length_cons, List.length_nil]
      constructor
      · intro hh
        omega
      · intro hh
        trivial
  · intro h
    unfold FT.nameLines
    rw [if_pos h]

/-- Counterexample to C4 as stated ("single line if and only if measured
width ≤ W - 100"): a 20-character unbreakable name at 30 px per character
measures 600 px > 500, yet is rendered as a single line because the
22-character wrap cannot split it. -/
theorem claim_C4_cex :
    (fun s : String => 30 * (s.length : Int)) "ABCDEFGHIJKLMNOPQRST" > FT.W - 100 ∧
    (FT.nameLines (fun s => 30 * (s.length : Int)) "ABCDEFGHIJKLMNOPQRST").length = 1 := by
  exact ⟨by decide, by decide⟩

/-- Witness for C4 at a concrete over-threshold name that wraps to three
candidate lines. -/
theorem claim_C4_witness :
    FT.nameLines (fun s => 30 * (s.length : Int))
        "MOHAMED AMINE BEN ABDALLAH EL FEHRI DE LA TOUR" =
      if 2 ≤ (pyWrap 22 "MOHAMED AMINE BEN ABDALLAH EL FEHRI DE LA TOUR").length then
        [⟨(pyWrap 22 "MOHAMED AMINE BEN ABDALLAH EL FEHRI DE LA TOUR").headD "",
            60, 40, (255, 255, 255)⟩,
         ⟨joinSpace (((pyWrap 22 "MOHAMED AMINE BEN ABDALLAH EL FEHRI DE LA TOUR").drop 1).take 2),
            100, 40, (220, 240, 255)⟩]
      else [⟨"MOHAMED AMINE BEN ABDALLAH EL FEHRI DE LA TOUR", 70, 40, (255, 255, 255)⟩] :=
  (claim_C4 (fun s => 30 * (s.length : Int))
      "MOHAMED AMINE BEN ABDALLAH EL FEHRI DE LA TOUR").2 (by decide)

/-- C5: when the measured width exceeds the threshold but the
22-character wrap produces exactly one line, the original unwrapped name
is rendered as a single (overflowing) line at y = 70. -/
theorem claim_C5 (measure : String → Int) (name : String)
    (h1 : measure name > FT.W - 100)
    (h2 : (pyWrap 22 name).length = 1) :
    FT.nameLines measure name = [⟨name, 70, 40, (255, 255, 255)⟩] := by
  unfold FT.nameLines
  rw [if_pos h1, if_neg (by omega)]

/-- Witness for C5: the 20-character unbreakable name again. -/
theorem claim_C5_witness :
    FT.nameLines (fun s => 30 * (s.length : Int)) "ABCDEFGHIJKLMNOPQRST" =
      [⟨"ABCDEFGHIJKLMNOPQRST", 70, 40, (255, 255, 255)⟩] :=
  claim_C5 (fun s => 30 * (s.length : Int)) "ABCDEFGHIJKLMNOPQRST" (by decide) (by decide)

/-- C1: for every payload and any behaviour of the external encoder and
resampler, the chip produced by `make_qr_badge` in each variant is a
square of side exactly `chipSize + 2*border`; every pixel outside the
outer rounded-rectangle mask has alpha 0, and in particular all four
corner pixels are fully transparent. -/
theorem claim_C1 (encodeQR : String → Img)
    (lanczos : Img → Nat → Nat → Int → Int → RGBA) (data : String) :
    ((FT.make_qr_badge encodeQR lanczos data).width = FT.QR_SIZE + 2 * FT.BORDER ∧
     (FT.make_qr_badge encodeQR lanczos data).height = FT.QR_SIZE + 2 * FT.BORDER ∧
     (∀ x y : Int,
        inRoundedRect 0 0 ((FT.QR_TOTAL : Int) - 1) ((FT.QR_TOTAL : Int) - 1) 42 x y = false →
        ((FT.make_qr_badge encodeQR lanczos data).px x y).a = 0) ∧
     ((FT.make_qr_badge encodeQR lanczos data).px 0 0).a = 0 ∧
     ((FT.make_qr_badge encodeQR lanczos data).px ((FT.QR_TOTAL : Int) - 1) 0).a = 0 ∧
     ((FT.make_qr_badge encodeQR lanczos data).px 0 ((FT.QR_TOTAL : Int) - 1)).a = 0 ∧
     ((FT.make_qr_badge encodeQR lanczos data).px ((FT.QR_TOTAL : Int) - 1)
        ((FT.QR_TOTAL : Int) - 1)).a = 0) ∧
    ((V2.make_qr_badge encodeQR lanczos data).width = V2.QR_SIZE + 2 * V2.BORDER ∧
     (V2.make_qr_badge encodeQR lanczos data).height = V2.QR_SIZE + 2 * V2.BORDER ∧
     (∀ x y : Int,
        inRoundedRect 0 0 ((V2.QR_TOTAL : Int) - 1) ((V2.QR_TOTAL : Int) - 1) 30 x y = false →
        ((V2.make_qr_badge encodeQR lanczos data).px x y).a = 0) ∧
     ((V2.make_qr_badge encodeQR lanczos data).px 0 0).a = 0 ∧
     ((V2.make_qr_badge encodeQR lanczos data).px ((V2.QR_TOTAL : Int) - 1) 0).a = 0 ∧
     ((V2.make_qr_badge encodeQR lanczos data).px 0 ((V2.QR_TOTAL : Int) - 1)).a = 0 ∧
     ((V2.make_qr_badge encodeQR lanczos data).px ((V2.QR_TOTAL : Int) - 1)
        ((V2.QR_TOTAL : Int) - 1)).a = 0) := by
  have hft : ∀ x y : Int,
      inRoundedRect 0 0 ((FT.QR_TOTAL : Int) - 1) ((FT.QR_TOTAL : Int) - 1) 42 x y = false →
      ((FT.make_qr_badge encodeQR lanczos data).px x y).a = 0 := by
    intro x y hmask
    simp only [FT.make_qr_badge, putalpha, roundedRectMask, hmask]
    simp
  have hv2 : ∀ x y : Int,
      inRoundedRect 0 0 ((V2.QR_TOTAL : Int) - 1) ((V2.QR_TOTAL : Int) - 1) 30 x y = false →
      ((V2.make_qr_badge encodeQR lanczos data).px x y).a = 0 := by
    intro x y hmask
    simp only [V2.make_qr_badge, putalpha, roundedRectMask, hmask]
    simp
  refine ⟨⟨rfl, rfl, hft, ?_, ?_, ?_, ?_⟩, ⟨rfl, rfl, hv2, ?_, ?_, ?_, ?_⟩⟩
  · exact hft 0 0 (by decide)
  · exact hft _ 0 (by decide)
  · exact hft 0 _ (by decide)
  · exact hft _ _ (by decide)
  · exact hv2 0 0 (by decide)
  · exact hv2 _ 0 (by decide)
  · exact hv2 0 _ (by decide)
  · exact hv2 _ _ (by decide)

/-- Witness for C1: with a trivial encoder and resampler, the corner
pixel of the chip of payload "007" is fully transparent in both
variants. -/
theorem claim_C1_witness :
    ((FT.make_qr_badge (fun _ => imageNewRGBA 1 1 ⟨0, 0, 0, 255⟩)
        (fun _ _ _ _ _ => ⟨0, 0, 0, 255⟩) "007").px 0 0).a = 0 ∧
    ((V2.make_qr_badge (fun _ => imageNewRGBA 1 1 ⟨0, 0, 0, 255⟩)
        (fun _ _ _ _ _ => ⟨0, 0, 0, 255⟩) "007").px 0 0).a = 0 :=
  ⟨((claim_C1 (fun _ => imageNewRGBA 1 1 ⟨0, 0, 0, 255⟩)
      (fun _ _ _ _ _ => ⟨0, 0, 0, 255⟩) "007").1.2.2.1) 0 0 (by decide),
   ((claim_C1 (fun _ => imageNewRGBA 1 1 ⟨0, 0, 0, 255⟩)
      (fun _ _ _ _ _ => ⟨0, 0, 0, 255⟩) "007").2.2.2.1) 0 0 (by decide)⟩

/- ===================== Character-closure lemmas for the wrap ===================== -/

lemma length_mk (l : List Char) : (String.mk l).length = l.length := rfl

lemma mem_flatten_of_mem_mem {ch : List Char} {L : List (List Char)} {c : Char}
    (hch : ch ∈ L) (hc : c ∈ ch) : c ∈ L.flatten :=
  List.mem_flatten.mpr ⟨ch, hch, hc⟩

lemma chunksOf_flatten : ∀ l : List Char, (chunksOf l).flatten = l := by
  intro l
  induction l with
  | nil => rfl
  | cons c cs ih =>
    rw [chunksOf]
    rcases hcs : chunksOf cs with _ | ⟨d, rest⟩
    · rw [hcs] at ih
      simp only [List.flatten_nil] at ih
      simp [← ih]
    · rcases d with _ | ⟨d0, ds⟩
      · rw [hcs] at ih
        simp only [List.flatten_cons, List.nil_append] at ih
        simp [ih]
      · rw [hcs] at ih
        simp only [List.flatten_cons] at ih
        dsimp only
        by_cases hc : ((c == ' ') = (d0 == ' '))
        · rw [if_pos hc]
          simp [ih]
        · rw [if_neg hc]
          simp [ih]

lemma fillLine_split (width : Nat) : ∀ (chs : List (List Char)) (k : Nat),
    (fillLine width k chs).1 ++ (fillLine width k chs).2 = chs := by
  intro chs
  induction chs with
  | nil => intro k; rfl
  | cons ch rest ih =>
    intro k
    rw [fillLine]
    by_cases hfit : k + ch.length ≤ width
    · rw [if_pos hfit]
      simp [ih]
    · rw [if_neg hfit]
      simp

lemma dropTrailing_subset (l : List (List Char)) : ∀ ch ∈ dropTrailing l, ch ∈ l := by
  intro ch hch
  unfold dropTrailing at hch
  rcases hl : l.getLast? with _ | last
  · rw [hl] at hch
    simp at hch
  · rw [hl] at hch
    dsimp only at hch
    by_cases hs : isSpaceChunk last = true
    · rw [if_pos hs] at hch
      exact List.dropLast_subset l hch
    · rw [if_neg hs] at hch
      exact hch

lemma wrapChunksF_chars (width : Nat) : ∀ (fuel : Nat) (chs : List (List Char))
    (hasLines : Bool) (line : List Char), line ∈ wrapChunksF width fuel chs hasLines →
    ∀ c ∈ line, c ∈ chs.flatten := by
  intro fuel
  induction fuel with
  | zero =>
    intro chs hasLines line hline
    simp [wrapChunksF] at hline
  | succ fuel ih =>
    intro chs hasLines line hline c hc
    rcases chs with _ | ⟨ch0, rest0⟩
    · simp [wrapChunksF] at hline
    · rw [wrapChunksF] at hline
      dsimp only at hline
      -- the (zeta-reduced) chunk list the line loop works on
      set chs1 := if hasLines && isSpaceChunk ch0 then rest0 else ch0 :: rest0 with hchs1
      have hsub1 : ∀ x, x ∈ chs1.flatten → x ∈ (ch0 :: rest0).flatten := by
        intro x hx
        rw [hchs1] at hx
        by_cases hb : (hasLines && isSpaceChunk ch0) = true
        · rw [if_pos hb] at hx
          simp only [List.flatten_cons, List.mem_append]
          exact Or.inr hx
        · rw [if_neg hb] at hx
          exact hx
      have hsplit := fillLine_split width chs1 0
      set p := fillLine width 0 chs1 with hp
      -- the chunks of the current line and the remaining chunks
      rcases hp2 : p.2 with _ | ⟨chL, r2⟩
      · rw [hp2] at hline
        dsimp only at hline
        -- no remaining chunk: cur = dropTrailing p.1, rest = []
        have hmem1 : ∀ x, x ∈ p.1.flatten → x ∈ chs1.flatten := by
          intro x hx
          rw [← hsplit]
          simp only [List.flatten_append, List.mem_append]
          exact Or.inl hx
        rcases hcur : dropTrailing p.1 with _ | ⟨c1, curRest⟩
        · rw [hcur] at hline
          have := ih [] hasLines line hline c hc
          simp at this
        · rw [hcur] at hline
          rcases List.mem_cons.mp hline with hhead | htail
          · subst hhead
            rcases List.mem_flatten.mp hc with ⟨chx, hchx, hcx⟩
            have : chx ∈ dropTrailing p.1 := by rw [hcur]; exact hchx
            exact hsub1 c (hmem1 c (mem_flatten_of_mem_mem (dropTrailing_subset _ _ this) hcx))
          · have := ih [] true line htail c hc
            simp at this
      · rw [hp2] at hline
        dsimp only at hline
        by_cases hlong : width < chL.length
        · rw [if_pos hlong] at hline
          dsimp only at hline
          set k := if width < 1 then 1 else width - totalLen p.1 with hk
          have hchL : chL ∈ chs1 := by
            have : chL ∈ p.1 ++ p.2 := by
              rw [hp2]
              simp
            rwa [hsplit] at this
          have hmemW1 : ∀ x, x ∈ (p.1 ++ [chL.take k]).flatten → x ∈ chs1.flatten := by
            intro x hx
            simp only [List.flatten_append, List.flatten_cons, List.flatten_nil,
              List.append_nil, List.mem_append] at hx
            rcases hx with hx | hx
            · rw [← hsplit]
              simp only [List.flatten_append, List.mem_append]
              exact Or.inl hx
            · exact mem_flatten_of_mem_mem hchL (List.take_subset k chL hx)
          have hmemW2 : ∀ x, x ∈ (chL.drop k :: r2).flatten → x ∈ chs1.flatten := by
            intro x hx
            simp only [List.flatten_cons, List.mem_append] at hx
            rcases hx with hx | hx
            · exact mem_flatten_of_mem_mem hchL (List.drop_subset k chL hx)
            · rw [← hsplit]
              simp only [List.flatten_append, List.mem_append]
              refine Or.inr ?_
              rw [hp2]
              simp only [List.flatten_cons, List.mem_append]
              exact Or.inr hx
          rcases hcur : dropTrailing (p.1 ++ [chL.take k]) with _ | ⟨c1, curRest⟩
          · rw [hcur] at hline
            exact hsub1 c (hmemW2 c (ih _ hasLines line hline c hc))
          · rw [hcur] at hline
            rcases List.mem_cons.mp hline with hhead | htail
            · subst hhead
              rcases List.mem_flatten.mp hc with ⟨chx, hchx, hcx⟩
              have : chx ∈ dropTrailing (p.1 ++ [chL.take k]) := by rw [hcur]; exact hchx
              exact hsub1 c (hmemW1 c (mem_flatten_of_mem_mem (dropTrailing_subset _ _ this) hcx))
            · exact hsub1 c (hmemW2 c (ih _ true line htail c hc))
        · rw [if_neg hlong] at hline
          dsimp only at hline
          have hmem1 : ∀ x, x ∈ p.1.flatten → x ∈ chs1.flatten := by
            intro x hx
            rw [← hsplit]
            simp only [List.flatten_append, List.mem_append]
            exact Or.inl hx
          have hmem2 : ∀ x, x ∈ (chL :: r2).flatten → x ∈ chs1.flatten := by
            intro x hx
            rw [← hsplit]
            simp only [List.flatten_append, List.mem_append]
            refine Or.inr ?_
            rw [hp2]
            exact hx
          rcases hcur : dropTrailing p.1 with _ | ⟨c1, curRest⟩
          · rw [hcur] at hline
            exact hsub1 c (hmem2 c (ih _ hasLines line hline c hc))
          · rw [hcur] at hline
            rcases List.mem_cons.mp hline with hhead | htail
            · subst hhead
              rcases List.mem_flatten.mp hc with ⟨chx, hchx, hcx⟩
              have : chx ∈ dropTrailing p.1 := by rw [hcur]; exact hchx
              exact hsub1 c (hmem1 c (mem_flatten_of_mem_mem (dropTrailing_subset _ _ this) hcx))
            · exact hsub1 c (hmem2 c (ih _ true line htail c hc))

/-- Every character of every line produced by the wrap model is either a
space or a character of the input text. -/
lemma pyWrap_chars (width : Nat) (s : String) :
    ∀ line ∈ pyWrap width s, ∀ c ∈ line.data, c = ' ' ∨ c ∈ s.data := by
  intro line hline c hc
  unfold pyWrap at hline
  simp only [List.mem_map] at hline
  obtain ⟨l, hl, rfl⟩ := hline
  have hc' : c ∈ l := hc
  have hmem := wrapChunksF_chars width _ _ _ l hl c hc'
  rw [chunksOf_flatten] at hmem
  simp only [List.mem_map] at hmem
  obtain ⟨c0, hc0, hrep⟩ := hmem
  unfold replaceWS at hrep
  by_cases h : isPyWS c0 = true
  · rw [if_pos h] at hrep
    exact Or.inl hrep.symm
  · rw [if_neg h] at hrep
    exact Or.inr (hrep ▸ hc0)

/- ===================== Case and padding lemmas ===================== -/

/-- A string with no lowercase ASCII letter. -/
def noLowerAscii (s : String) : Prop := ∀ c ∈ s.data, c.isLower = false

/-- A string of ASCII characters only. -/
def asciiOnly (s : String) : Prop := ∀ c ∈ s.data, c.toNat < 128

lemma toUpper_not_lower (c : Char) (h : c.toNat < 128) :
    (Char.toUpper c).isLower = false := by
  have H : ∀ n, n < 128 → ((Char.ofNat n).toUpper.isLower = false) := by decide
  have := H c.toNat h
  rwa [Char.ofNat_toNat] at this

lemma pyUpper_noLower (s : String) (h : asciiOnly s) : noLowerAscii (pyUpper s) := by
  intro c hc
  have hc' : c ∈ s.data.map Char.toUpper := hc
  simp only [List.mem_map] at hc'
  obtain ⟨c0, hc0, rfl⟩ := hc'
  exact toUpper_not_lower c0 (h c0 hc0)

lemma pyStrip_subset (s : String) : ∀ c ∈ (pyStrip s).data, c ∈ s.data := by
  intro c hc
  have hc' : c ∈ ((s.data.dropWhile isPyWS).reverse.dropWhile isPyWS).reverse := hc
  rw [List.mem_reverse] at hc'
  have h1 := (List.dropWhile_sublist isPyWS).subset hc'
  rw [List.mem_reverse] at h1
  exact (List.dropWhile_sublist isPyWS).subset h1

lemma asciiOnly_pyStrip (s : String) (h : asciiOnly s) : asciiOnly (pyStrip s) :=
  fun c hc => h c (pyStrip_subset s c hc)

lemma joinSpace_chars : ∀ (ls : List String) (c : Char), c ∈ (joinSpace ls).data →
    c = ' ' ∨ ∃ s ∈ ls, c ∈ s.data := by
  intro ls
  induction ls with
  | nil =>
    intro c hc
    simp [joinSpace] at hc
  | cons s rest ih =>
    rcases rest with _ | ⟨t, ts⟩
    · intro c hc
      exact Or.inr ⟨s, by simp, hc⟩
    · intro c hc
      rw [show joinSpace (s :: t :: ts) = s ++ " " ++ joinSpace (t :: ts) from rfl] at hc
      simp only [String.data_append, List.mem_append] at hc
      rcases hc with (hc | hc) | hc
      · exact Or.inr ⟨s, by simp, hc⟩
      · left
        simpa using hc
      · rcases ih c hc with h1 | ⟨u, hu, hcu⟩
        · exact Or.inl h1
        · exact Or.inr ⟨u, by simp [hu], hcu⟩

lemma pyZfill_length (s : String) (w : Nat) : (pyZfill s w).length = max w s.length := by
  obtain ⟨l⟩ := s
  unfold pyZfill
  by_cases h : w ≤ (String.mk l).length
  · rw [if_pos h]
    rw [length_mk] at h ⊢
    omega
  · rw [if_neg h]
    rw [length_mk] at h
    rcases l with _ | ⟨c, cs⟩
    · simp only [length_mk, List.length_replicate, List.length_nil]
      omega
    · dsimp only
      by_cases hsign : c = '+' ∨ c = '-'
      · rw [if_pos hsign]
        simp only [length_mk, List.length_cons, List.length_append, List.length_replicate]
        omega
      · rw [if_neg hsign]
        simp only [length_mk, List.length_cons, List.length_append, List.length_replicate]
        omega

lemma pyZfill_of_le (s : String) (w : Nat) (h : w ≤ s.length) : pyZfill s w = s := by
  unfold pyZfill
  rw [if_pos h]

/-- Every character of every rendered name line is a space or a
character of the name string handed to the layout. -/
lemma nameLines_noLower (measure : String → Int) (name : String)
    (h : noLowerAscii name) :
    ∀ line ∈ FT.nameLines measure name, noLowerAscii line.text := by
  have hspace : (' ' : Char).isLower = false := by decide
  have hofname : ∀ t : String, (∀ c ∈ t.data, c = ' ' ∨ c ∈ name.data) → noLowerAscii t := by
    intro t ht c hc
    rcases ht c hc with rfl | hcn
    · exact hspace
    · exact h c hcn
  intro line hline
  unfold FT.nameLines at hline
  by_cases h1 : measure name > FT.W - 100
  · rw [if_pos h1] at hline
    dsimp only at hline
    by_cases h2 : 2 ≤ (pyWrap 22 name).length
    · rw [if_pos h2] at hline
      simp only [List.mem_cons, List.not_mem_nil, or_false] at hline
      rcases hline with rfl | rfl
      · dsimp only
        rcases hw : pyWrap 22 name with _ | ⟨w0, ws⟩
        · rw [hw] at h2
          simp at h2
        · simp only [hw, List.headD_cons]
          exact hofname w0 fun c hc =>
            pyWrap_chars 22 name w0 (by rw [hw]; simp) c hc
      · dsimp only
        refine hofname _ fun c hc => ?_
        rcases joinSpace_chars _ c hc with h1' | ⟨u, hu, hcu⟩
        · exact Or.inl h1'
        · have hu' : u ∈ pyWrap 22 name :=
            List.drop_subset 1 (pyWrap 22 name) (List.take_subset 2 _ hu)
          exact pyWrap_chars 22 name u hu' c hcu
    · rw [if_neg h2] at hline
      simp only [List.mem_cons, List.not_mem_nil, or_false] at hline
      subst hline
      exact h
  · rw [if_neg h1] at hline
    simp only [List.mem_cons, List.not_mem_nil, or_false] at hline
    subst hline
    exact h

/-- C10 (amended): in the JPEG and PDF variants the participant name is
uppercased after stripping, before the layout ever measures it, so for
ASCII input every rendered name line is free of lowercase letters; the
branch field is likewise uppercased in the PDF variant, while the JPEG
variant zero-pads its branch field without any case conversion; and
`zfill(3)` pads to length 3 but never truncates a longer identifier. -/
theorem claim_C10 :
    (∀ (measure : String → Int) (p : FT.Rec) (b : FT.Badge),
        FT.processRecord measure p = some b →
        b.name = pyUpper (pyStrip (p.name?.getD "No Name")) ∧
        b.pbranch = pyZfill (p.studentBranch?.getD "0000") 3 ∧
        b.nameBlock = FT.nameLines measure b.name ∧
        (asciiOnly (p.name?.getD "No Name") →
          ∀ line ∈ b.nameBlock, noLowerAscii line.text)) ∧
    (∀ (p : V2.Rec) (b : V2.Badge),
        V2.processRecord p = some b →
        b.name = pyUpper (pyStrip (p.fullName?.getD "No Name")) ∧
        b.branch = pyUpper (pyStrip (p.branch?.getD ""))) ∧
    (∀ s : String,
        (pyZfill s 3).length = max 3 s.length ∧ (3 ≤ s.length → pyZfill s 3 = s)) := by
  refine ⟨?_, ?_, ?_⟩
  · intro measure p b hb
    by_cases hc : pyUpper (pyStrip (p.name?.getD "No Name")) = "" ∨
        pyUpper (pyStrip (p.name?.getD "No Name")) = "NO NAME"
    · simp [FT.processRecord, hc] at hb
    · simp [FT.processRecord, hc] at hb
      subst hb
      refine ⟨rfl, rfl, rfl, ?_⟩
      intro hascii line hline
      exact nameLines_noLower measure _
        (pyUpper_noLower _ (asciiOnly_pyStrip _ hascii)) line hline
  · intro p b hb
    by_cases hc : pyUpper (pyStrip (p.fullName?.getD "No Name")) = "" ∨
        pyUpper (pyStrip (p.fullName?.getD "No Name")) = "NO NAME" ∨
        pyUpper (pyStrip (p.fullName?.getD "No Name")) = " "
    · simp [V2.processRecord, hc] at hb
    · simp [V2.processRecord, hc] at hb
      subst hb
      exact ⟨rfl, rfl⟩
  · intro s
    exact ⟨pyZfill_length s 3, fun h => pyZfill_of_le s 3 h⟩

/-- Counterexample to C10 as stated: in the JPEG variant the branch
field is zero-padded but not uppercased — the record with branch "cs"
renders the branch text "0cs", which contains lowercase letters. -/
theorem claim_C10_cex :
    (FT.processRecord (fun _ => 0)
        ⟨some "John Smith", some "1", some "cs"⟩).map FT.Badge.pbranch = some "0cs" ∧
    ¬ noLowerAscii "0cs" := by
  constructor
  · rfl
  · intro hn
    exact absurd (hn 'c' (by decide)) (by decide)

/-- Witness for C10 at a concrete record of the JPEG variant, plus the
no-truncation fact of `zfill(3)` at a five-character identifier. -/
theorem claim_C10_witness :
    (FT.processRecord (fun _ => 0)
        ⟨some "John Smith", some "7", some "cs"⟩).map FT.Badge.name
      = some (pyUpper (pyStrip "John Smith")) ∧
    noLowerAscii (FT.TextLine.text ⟨"JOHN SMITH", 70, 40, (255, 255, 255)⟩) ∧
    pyZfill "12345" 3 = "12345" := by
  have hq : FT.processRecord (fun _ => 0) ⟨some "John Smith", some "7", some "cs"⟩ =
      some { name := pyUpper (pyStrip "John Smith"), pid := pyZfill "7" 3,
             pbranch := pyZfill "cs" 3,
             nameBlock := FT.nameLines (fun _ => 0) (pyUpper (pyStrip "John Smith")),
             file := "badges-enis/" ++ pyZfill "7" 3 ++ ".jpg" } := by rfl
  have h := claim_C10.1 (fun _ => 0) ⟨some "John Smith", some "7", some "cs"⟩ _ hq
  refine ⟨?_, ?_, ?_⟩
  · rw [hq]
    simp [h.1]
  · exact h.2.2.2 (by unfold asciiOnly; decide) _ (by decide)
  · exact (claim_C10.2.2 "12345").2 (by decide)
